import Mathlib

/-!
Verification of the watchlist reconciliation and change-detection engine
(`src/services/plex-watchlist.service.ts` and
`src/plugins/custom/plex-test-service.ts`) against its specification.

The TypeScript code is shallowly embedded: JavaScript `Map`s become
insertion-ordered association lists (`jget`/`jset` model `Map.get`/`Map.set`:
`set` overwrites the value of an existing key in place, preserving the key's
insertion position, and appends a fresh key at the end; iteration follows list
order, exactly like JS `Map` iteration order), JS `Set`s of strings become
duplicate-free lists built by `jsSet`, JS `Set`s of *objects* become lists of
references (`QueuedRef`) carrying an allocation id, because JS `Set.has` on
objects compares by reference identity, not by value.  Fallible operations
return `Except String`.  `Date.now()` timestamps that are only stored and
never compared (`created_at`/`updated_at`) are omitted from the record types.
-/

namespace WatchlistSync

/-- Model of JavaScript `Map.get`: return the value of the first matching key. -/
def jget {α β : Type} [DecidableEq α] : List (α × β) → α → Option β
  | [], _ => none
  | (k, v) :: rest, a => if k = a then some v else jget rest a

/-- Model of JavaScript `Map.set`: overwrite in place, else append at the end. -/
def jset {α β : Type} [DecidableEq α] : List (α × β) → α → β → List (α × β)
  | [], a, b => [(a, b)]
  | (k, v) :: rest, a, b =>
    if k = a then (k, b) :: rest else (k, v) :: jset rest a b

theorem jget_jset {α β : Type} [DecidableEq α] (m : List (α × β)) (a a2 : α) (b : β) :
    jget (jset m a b) a2 = if a = a2 then some b else jget m a2 := by
  induction m with
  | nil =>
    by_cases h : a = a2 <;> simp [jget, jset, h]
  | cons hd tl ih =>
    obtain ⟨k, v⟩ := hd
    by_cases hk : k = a
    · have hka2 : (k = a2) ↔ (a = a2) := by rw [hk]
      by_cases h2 : a = a2
      · simp [jset, hk, jget, hka2.mpr h2, h2]
      · simp [jset, hk, jget, h2, fun h => h2 (hka2.mp h)]
    · by_cases h2 : k = a2
      · have ha2 : ¬ a = a2 := fun h => hk (h2.trans h.symm)
        have e1 : jset ((k, v) :: tl) a b = (k, v) :: jset tl a b := by
          simp [jset, hk]
        have e2 : jget ((k, v) :: jset tl a b) a2 = some v := by
          simp [jget, h2]
        have e3 : jget ((k, v) :: tl) a2 = some v := by
          simp [jget, h2]
        rw [e1, e2, if_neg ha2, e3]
      · simp [jset, hk, jget, h2, ih]

theorem jset_ne_nil {α β : Type} [DecidableEq α] (m : List (α × β)) (a : α) (b : β) :
    jset m a b ≠ [] := by
  cases m with
  | nil => simp [jset]
  | cons hd tl =>
    obtain ⟨k, v⟩ := hd
    by_cases hk : k = a <;> simp [jset, hk]

theorem mem_keys_jset {α β : Type} [DecidableEq α] (m : List (α × β)) (a a2 : α) (b : β) :
    a2 ∈ (jset m a b).map Prod.fst ↔ a2 = a ∨ a2 ∈ m.map Prod.fst := by
  induction m with
  | nil => simp [jset, eq_comm]
  | cons hd tl ih =>
    obtain ⟨k, v⟩ := hd
    by_cases hk : k = a
    · have e1 : jset ((k, v) :: tl) a b = (k, b) :: tl := by
        simp [jset, hk]
      rw [e1]
      simp only [List.map_cons, List.mem_cons, hk]
      tauto
    · simp only [jset, if_neg hk, List.map_cons, List.mem_cons, ih]
      tauto

theorem mem_jset {α β : Type} [DecidableEq α] (m : List (α × β)) (a : α) (b : β)
    (p : α × β) (hp : p ∈ jset m a b) : p ∈ m ∨ p = (a, b) := by
  induction m with
  | nil => simpa [jset] using hp
  | cons hd tl ih =>
    obtain ⟨k, v⟩ := hd
    by_cases hk : k = a
    · subst hk
      simp only [jset, if_pos rfl] at hp
      rcases List.mem_cons.mp hp with h | h
      · right; simpa using h
      · left; exact List.mem_cons_of_mem _ h
    · simp only [jset, if_neg hk] at hp
      rcases List.mem_cons.mp hp with h | h
      · left; exact h ▸ List.mem_cons_self _ _
      · rcases ih h with h2 | h2
        · left; exact List.mem_cons_of_mem _ h2
        · right; exact h2

/-- An identity in a pass: `Friend & { userId: number }` from
`plex-watchlist.service.ts`. -/
structure Friend where
  watchlistId : String
  username : String
  userId : Nat
deriving DecidableEq

/-- A `guids`/`genres` field as stored: either a plain array or a JSON-encoded
string.  The `jsonStr` constructor carries the list the string decodes to, so
`JSON.parse` on the string form is modelled by `decodeGuids`. -/
inductive GuidsField where
  | arr : List String → GuidsField
  | jsonStr : List String → GuidsField
deriving DecidableEq

/-- Decode a `guids`/`genres` field: `typeof g === 'string' ? JSON.parse(g) : g`. -/
def decodeGuids : GuidsField → List String
  | .arr g => g
  | .jsonStr g => g

/-- A stored watchlist row (`Item` / `WatchlistItem` in `plex.types`).  The
`created_at`/`updated_at` wall-clock strings are not modelled: no code under
verification reads them. -/
structure StoredItem where
  user_id : Nat
  key : String
  title : String
  type : String
  thumb : Option String
  guids : GuidsField
  genres : GuidsField
  status : String
deriving DecidableEq

/-- A raw per-fetch item (`TokenWatchlistItem`): `id` is the upstream content
key. -/
structure TokenItem where
  id : String
  title : String
  type : String
  thumb : Option String
  guids : List String
  genres : List String
deriving DecidableEq

/-- A row is skipped by `mapExistingItemsByKey` when `!item.key || !item.user_id`
(JS falsiness: empty string, zero). -/
def isValidRow (e : StoredItem) : Prop := e.key ≠ "" ∧ e.user_id ≠ 0

instance (e : StoredItem) : Decidable (isValidRow e) := by
  unfold isValidRow
  infer_instance

/-- The nested lookup structure `Map<string, Map<number, WatchlistItem>>`. -/
abbrev KeyMap := List (String × List (Nat × StoredItem))

/-- One loop iteration of `mapExistingItemsByKey`: skip rows with a falsy key or
user id, otherwise insert the row into the inner per-user map of its key. -/
def insertExisting (m : KeyMap) (item : StoredItem) : KeyMap :=
  if item.key = "" ∨ item.user_id = 0 then m
  else jset m item.key (jset ((jget m item.key).getD []) item.user_id item)

/-- `mapExistingItemsByKey` (service lines 494-510): group the bulk-fetched rows
as `key → (user_id → row)`. -/
def mapExistingItemsByKey (existingItems : List StoredItem) : KeyMap :=
  existingItems.foldl insertExisting []

/-- `createWatchlistItem` (service lines 535-552): synthesize the linked row for
`user` from the raw item's `id` and the template row's content fields. -/
def createWatchlistItem (user : Friend) (item : TokenItem) (templateItem : StoredItem) :
    StoredItem :=
  { user_id := user.userId
    key := item.id
    title := templateItem.title
    type := templateItem.type
    thumb := templateItem.thumb
    guids := templateItem.guids
    genres := templateItem.genres
    status := "pending" }

/-- Result of `separateNewAndExistingItems`: the `newItems` and `itemsToLink`
sets, in iteration order. -/
structure SeparatedItems where
  newItems : List TokenItem
  itemsToLink : List StoredItem
deriving DecidableEq

/-- `separateNewAndExistingItems` (service lines 512-533).  For each raw item:
no entry for its `id` in the key map → brand-new; an entry whose user ids do
not include this user → link a copy of the template row (the first value of
the inner map, i.e. `existingItem.values().next().value`) unless the template
has a falsy title or type; an entry covering this user → nothing. -/
def separateNewAndExistingItems (items : List TokenItem) (user : Friend)
    (existingItemsByKey : KeyMap) : SeparatedItems :=
  match items with
  | [] => ⟨[], []⟩
  | item :: rest =>
    let s := separateNewAndExistingItems rest user existingItemsByKey
    match jget existingItemsByKey item.id with
    | none => ⟨item :: s.newItems, s.itemsToLink⟩
    | some existingItem =>
      if user.userId ∈ existingItem.map Prod.fst then s
      else
        match existingItem.head? with
        | none => s
        | some (_, templateItem) =>
          if templateItem.title ≠ "" ∧ templateItem.type ≠ "" then
            ⟨s.newItems, createWatchlistItem user item templateItem :: s.itemsToLink⟩
          else s

/-- The link decision for a single raw item, as a partial function: `some row`
when `separateNewAndExistingItems` would add `row` to `itemsToLink` for this
item, `none` otherwise. -/
def linkOf (user : Friend) (existingItemsByKey : KeyMap) (item : TokenItem) :
    Option StoredItem :=
  match jget existingItemsByKey item.id with
  | none => none
  | some existingItem =>
    if user.userId ∈ existingItem.map Prod.fst then none
    else
      match existingItem.head? with
      | none => none
      | some (_, templateItem) =>
        if templateItem.title ≠ "" ∧ templateItem.type ≠ "" then
          some (createWatchlistItem user item templateItem)
        else none

/-- `categorizeItems` (service lines 357-377): run the separation for every
identity, keeping only identities with non-empty category sets. -/
def categorizeItems (userWatchlistMap : List (Friend × List TokenItem))
    (existingItems : List StoredItem) :
    List (Friend × List TokenItem) × List (Friend × List StoredItem) :=
  let existingItemsByKey := mapExistingItemsByKey existingItems
  match userWatchlistMap with
  | [] => ([], [])
  | (user, items) :: rest =>
    let s := separateNewAndExistingItems items user existingItemsByKey
    let (b, l) := categorizeItems rest existingItems
    (if s.newItems ≠ [] then (user, s.newItems) :: b else b,
     if s.itemsToLink ≠ [] then (user, s.itemsToLink) :: l else l)

/-- The user ids present in the inner map of key `k`. -/
def keyUsers (m : KeyMap) (k : String) : List Nat :=
  ((jget m k).getD []).map Prod.fst

theorem jget_insertExisting_none (m : KeyMap) (e : StoredItem) (k : String) :
    jget (insertExisting m e) k = none ↔
      jget m k = none ∧ ¬(isValidRow e ∧ e.key = k) := by
  unfold insertExisting
  by_cases hv : e.key = "" ∨ e.user_id = 0
  · have hnv : ¬(isValidRow e ∧ e.key = k) := by
      rintro ⟨⟨h1, h2⟩, -⟩
      rcases hv with h | h
      · exact h1 h
      · exact h2 h
    simp [hv, hnv]
  · have hval : isValidRow e := ⟨fun h => hv (Or.inl h), fun h => hv (Or.inr h)⟩
    rw [if_neg hv, jget_jset]
    by_cases hk : e.key = k
    · simp [hk, hval]
    · simp [hk, hval]

theorem keyUsers_insertExisting (m : KeyMap) (e : StoredItem) (k : String) (uid : Nat) :
    uid ∈ keyUsers (insertExisting m e) k ↔
      uid ∈ keyUsers m k ∨ (isValidRow e ∧ e.key = k ∧ e.user_id = uid) := by
  unfold insertExisting keyUsers
  by_cases hv : e.key = "" ∨ e.user_id = 0
  · have hnv : ¬ isValidRow e := by
      rintro ⟨h1, h2⟩
      rcases hv with h | h
      · exact h1 h
      · exact h2 h
    simp [hv, hnv]
  · have hval : isValidRow e := ⟨fun h => hv (Or.inl h), fun h => hv (Or.inr h)⟩
    rw [if_neg hv, jget_jset]
    by_cases hk : e.key = k
    · subst hk
      rw [if_pos rfl, Option.getD_some, mem_keys_jset]
      simp only [hval, eq_self_iff_true, true_and]
      constructor
      · rintro (h | h)
        · exact Or.inr h.symm
        · exact Or.inl h
      · rintro (h | h)
        · exact Or.inr h
        · exact Or.inl h.symm
    · simp [hk]

theorem mem_inner_insertExisting (m : KeyMap) (e : StoredItem) (k : String)
    (uid : Nat) (t : StoredItem)
    (h : (uid, t) ∈ (jget (insertExisting m e) k).getD []) :
    (uid, t) ∈ (jget m k).getD [] ∨
      (t = e ∧ isValidRow e ∧ e.key = k ∧ e.user_id = uid) := by
  unfold insertExisting at h
  by_cases hv : e.key = "" ∨ e.user_id = 0
  · rw [if_pos hv] at h
    exact Or.inl h
  · have hval : isValidRow e := ⟨fun h2 => hv (Or.inl h2), fun h2 => hv (Or.inr h2)⟩
    rw [if_neg hv, jget_jset] at h
    by_cases hk : e.key = k
    · rw [if_pos hk, Option.getD_some] at h
      rcases mem_jset _ _ _ _ h with h2 | h2
      · rw [hk] at h2
        exact Or.inl h2
      · right
        have h3 : uid = e.user_id := congrArg Prod.fst h2
        have h4 : t = e := congrArg Prod.snd h2
        exact ⟨h4, hval, hk, h3.symm⟩
    · rw [if_neg hk] at h
      exact Or.inl h

theorem jget_foldl_insertExisting_none (l : List StoredItem) (m : KeyMap) (k : String) :
    jget (l.foldl insertExisting m) k = none ↔
      jget m k = none ∧ ∀ e ∈ l, ¬(isValidRow e ∧ e.key = k) := by
  induction l generalizing m with
  | nil => simp
  | cons e rest ih =>
    simp only [List.foldl_cons, ih, jget_insertExisting_none, List.forall_mem_cons]
    tauto

theorem keyUsers_foldl_insertExisting (l : List StoredItem) (m : KeyMap)
    (k : String) (uid : Nat) :
    uid ∈ keyUsers (l.foldl insertExisting m) k ↔
      uid ∈ keyUsers m k ∨ ∃ e ∈ l, isValidRow e ∧ e.key = k ∧ e.user_id = uid := by
  induction l generalizing m with
  | nil => simp
  | cons e rest ih =>
    simp only [List.foldl_cons, ih, keyUsers_insertExisting, List.exists_mem_cons_iff]
    tauto

theorem mem_inner_foldl_insertExisting (l : List StoredItem) (m : KeyMap)
    (k : String) (uid : Nat) (t : StoredItem)
    (h : (uid, t) ∈ (jget (l.foldl insertExisting m) k).getD []) :
    (uid, t) ∈ (jget m k).getD [] ∨
      (t ∈ l ∧ isValidRow t ∧ t.key = k ∧ t.user_id = uid) := by
  induction l generalizing m with
  | nil => exact Or.inl h
  | cons e rest ih =>
    rw [List.foldl_cons] at h
    rcases ih _ h with h2 | h2
    · rcases mem_inner_insertExisting _ _ _ _ _ h2 with h3 | h3
      · exact Or.inl h3
      · obtain ⟨he, hval, hk, huid⟩ := h3
        subst he
        exact Or.inr ⟨List.mem_cons_self _ _, hval, hk, huid⟩
    · obtain ⟨hmem, hval, hk, huid⟩ := h2
      exact Or.inr ⟨List.mem_cons_of_mem _ hmem, hval, hk, huid⟩

/-- Every inner map stored in the key map is non-empty. -/
def InnerNonempty (m : KeyMap) : Prop :=
  ∀ k um, jget m k = some um → um ≠ []

theorem innerNonempty_insertExisting (m : KeyMap) (e : StoredItem)
    (h : InnerNonempty m) : InnerNonempty (insertExisting m e) := by
  intro k um hg
  unfold insertExisting at hg
  by_cases hv : e.key = "" ∨ e.user_id = 0
  · rw [if_pos hv] at hg
    exact h k um hg
  · rw [if_neg hv, jget_jset] at hg
    by_cases hk : e.key = k
    · rw [if_pos hk, Option.some.injEq] at hg
      exact hg ▸ jset_ne_nil _ _ _
    · rw [if_neg hk] at hg
      exact h k um hg

theorem innerNonempty_foldl (l : List StoredItem) (m : KeyMap)
    (h : InnerNonempty m) : InnerNonempty (l.foldl insertExisting m) := by
  induction l generalizing m with
  | nil => exact h
  | cons e rest ih => exact ih _ (innerNonempty_insertExisting _ _ h)

theorem innerNonempty_mapExisting (ex : List StoredItem) :
    InnerNonempty (mapExistingItemsByKey ex) := by
  refine innerNonempty_foldl ex [] ?_
  intro k um hg
  simp [jget] at hg

theorem mapExisting_none_iff (ex : List StoredItem) (k : String) :
    jget (mapExistingItemsByKey ex) k = none ↔
      ∀ e ∈ ex, ¬(isValidRow e ∧ e.key = k) := by
  unfold mapExistingItemsByKey
  rw [jget_foldl_insertExisting_none]
  simp [jget]

theorem mapExisting_keyUsers (ex : List StoredItem) (k : String) (uid : Nat) :
    uid ∈ keyUsers (mapExistingItemsByKey ex) k ↔
      ∃ e ∈ ex, isValidRow e ∧ e.key = k ∧ e.user_id = uid := by
  unfold mapExistingItemsByKey
  rw [keyUsers_foldl_insertExisting]
  simp [keyUsers, jget]

theorem mapExisting_mem_inner (ex : List StoredItem) (k : String) (uid : Nat)
    (t : StoredItem)
    (h : (uid, t) ∈ (jget (mapExistingItemsByKey ex) k).getD []) :
    t ∈ ex ∧ isValidRow t ∧ t.key = k ∧ t.user_id = uid := by
  unfold mapExistingItemsByKey at h
  rcases mem_inner_foldl_insertExisting _ _ _ _ _ h with h2 | h2
  · simp [jget] at h2
  · exact h2

theorem sep_newItems (items : List TokenItem) (user : Friend) (m : KeyMap) :
    (separateNewAndExistingItems items user m).newItems
      = items.filter (fun it => (jget m it.id).isNone) := by
  induction items with
  | nil => rfl
  | cons item rest ih =>
    simp only [separateNewAndExistingItems]
    cases hj : jget m item.id with
    | none => simp [hj, List.filter_cons, ih]
    | some em =>
      by_cases hu : user.userId ∈ em.map Prod.fst
      · simp [hj, hu, List.filter_cons, ih]
      · cases hh : em.head? with
        | none => simp [hj, hu, hh, List.filter_cons, ih]
        | some p =>
          obtain ⟨uid0, t0⟩ := p
          by_cases ht : t0.title ≠ "" ∧ t0.type ≠ ""
          · simp [hj, hu, hh, ht, List.filter_cons, ih]
          · simp [hj, hu, hh, ht, List.filter_cons, ih]

theorem sep_itemsToLink (items : List TokenItem) (user : Friend) (m : KeyMap) :
    (separateNewAndExistingItems items user m).itemsToLink
      = items.filterMap (linkOf user m) := by
  induction items with
  | nil => rfl
  | cons item rest ih =>
    simp only [separateNewAndExistingItems, List.filterMap_cons]
    cases hj : jget m item.id with
    | none => simp [linkOf, hj, ih]
    | some em =>
      by_cases hu : user.userId ∈ em.map Prod.fst
      · simp [linkOf, hj, hu, ih]
      · cases hh : em.head? with
        | none => simp [linkOf, hj, hu, hh, ih]
        | some p =>
          obtain ⟨uid0, t0⟩ := p
          by_cases ht : t0.title ≠ "" ∧ t0.type ≠ ""
          · simp [linkOf, hj, hu, hh, ht, ih]
          · simp [linkOf, hj, hu, hh, ht, ih]

/-- C1 (amended form): whether a raw item is brand-new is decided solely by its
`id` against the stored keys, never by guid intersection. -/
theorem linking_decided_by_key_not_guids (user : Friend) (items : List TokenItem)
    (ex : List StoredItem) (item : TokenItem)
    (hvalid : ∀ e ∈ ex, isValidRow e) (hmem : item ∈ items) :
    ((∀ e ∈ ex, e.key ≠ item.id) →
      item ∈ (separateNewAndExistingItems items user (mapExistingItemsByKey ex)).newItems)
    ∧ ((∃ e ∈ ex, e.key = item.id) →
      item ∉ (separateNewAndExistingItems items user (mapExistingItemsByKey ex)).newItems) := by
  rw [sep_newItems]
  constructor
  · intro hnone
    rw [List.mem_filter]
    refine ⟨hmem, ?_⟩
    have : jget (mapExistingItemsByKey ex) item.id = none := by
      rw [mapExisting_none_iff]
      rintro e he ⟨-, hkey⟩
      exact hnone e he hkey
    simp [this]
  · rintro ⟨e, he, hkey⟩ hcontra
    rw [List.mem_filter] at hcontra
    obtain ⟨-, hnone⟩ := hcontra
    rw [Option.isNone_iff_eq_none, mapExisting_none_iff] at hnone
    exact hnone e he ⟨hvalid e he, hkey⟩

/-- The full categorization contract of the Reconciler for one identity and one
raw item; see the C2 theorem below. -/
def CategorizationSpec (user : Friend) (items : List TokenItem)
    (ex : List StoredItem) (item : TokenItem) : Prop :=
  (separateNewAndExistingItems items user (mapExistingItemsByKey ex)).newItems
      = items.filter (fun it => (jget (mapExistingItemsByKey ex) it.id).isNone)
  ∧ (separateNewAndExistingItems items user (mapExistingItemsByKey ex)).itemsToLink
      = items.filterMap (linkOf user (mapExistingItemsByKey ex))
  ∧ (item ∈ (separateNewAndExistingItems items user (mapExistingItemsByKey ex)).newItems
      ↔ ∀ e ∈ ex, e.key ≠ item.id)
  ∧ ((∃ e ∈ ex, e.key = item.id) →
      (∀ e ∈ ex, e.key = item.id → e.user_id ≠ user.userId) →
      ∃ t ∈ ex, t.key = item.id
        ∧ linkOf user (mapExistingItemsByKey ex) item
            = (if t.title ≠ "" ∧ t.type ≠ ""
                then some (createWatchlistItem user item t) else none)
        ∧ ((t.title ≠ "" ∧ t.type ≠ "") →
            createWatchlistItem user item t
              ∈ (separateNewAndExistingItems items user (mapExistingItemsByKey ex)).itemsToLink))
  ∧ ((∃ e ∈ ex, e.key = item.id ∧ e.user_id = user.userId) →
      item ∉ (separateNewAndExistingItems items user (mapExistingItemsByKey ex)).newItems
      ∧ linkOf user (mapExistingItemsByKey ex) item = none)

/-- C2: the Reconciler's categorization trichotomy: brand-new iff no stored row
with that key for any user; rows only for other users give a linked copy of a
template row sharing the key unless that template lacks a title or type; a row
for this exact user and key contributes nothing. -/
theorem separate_categorization (user : Friend) (items : List TokenItem)
    (ex : List StoredItem) (item : TokenItem)
    (hvalid : ∀ e ∈ ex, isValidRow e) (hmem : item ∈ items) :
    CategorizationSpec user items ex item := by
  have hnew := sep_newItems items user (mapExistingItemsByKey ex)
  have hlinkeq := sep_itemsToLink items user (mapExistingItemsByKey ex)
  refine ⟨hnew, hlinkeq, ?_, ?_, ?_⟩
  · rw [hnew, List.mem_filter]
    constructor
    · rintro ⟨-, hnone⟩ e he hkey
      rw [Option.isNone_iff_eq_none, mapExisting_none_iff] at hnone
      exact hnone e he ⟨hvalid e he, hkey⟩
    · intro hnone
      refine ⟨hmem, ?_⟩
      have : jget (mapExistingItemsByKey ex) item.id = none := by
        rw [mapExisting_none_iff]
        rintro e he ⟨-, hkey⟩
        exact hnone e he hkey
      simp [this]
  · rintro ⟨e, he, hkey⟩ hothers
    have hne : ¬ jget (mapExistingItemsByKey ex) item.id = none := by
      rw [mapExisting_none_iff]
      push_neg
      exact ⟨e, he, hvalid e he, hkey⟩
    cases hj : jget (mapExistingItemsByKey ex) item.id with
    | none => exact absurd hj hne
    | some um =>
      have humne : um ≠ [] := innerNonempty_mapExisting ex item.id um hj
      cases hum : um with
      | nil => exact absurd hum humne
      | cons p tail =>
        obtain ⟨uid0, t0⟩ := p
        have hpmem : (uid0, t0) ∈ (jget (mapExistingItemsByKey ex) item.id).getD [] := by
          rw [hj, Option.getD_some, hum]
          exact List.mem_cons_self _ _
        obtain ⟨ht0mem, -, ht0key, ht0uid⟩ := mapExisting_mem_inner ex item.id uid0 t0 hpmem
        have hnotmem : user.userId ∉ um.map Prod.fst := by
          intro hin
          have : user.userId ∈ keyUsers (mapExistingItemsByKey ex) item.id := by
            unfold keyUsers
            rw [hj, Option.getD_some]
            exact hin
          rw [mapExisting_keyUsers] at this
          obtain ⟨e2, he2, -, he2key, he2uid⟩ := this
          exact hothers e2 he2 he2key he2uid
        have hlink : linkOf user (mapExistingItemsByKey ex) item
            = (if t0.title ≠ "" ∧ t0.type ≠ ""
                then some (createWatchlistItem user item t0) else none) := by
          rw [hum] at hnotmem
          simp only [linkOf, hj, hum, if_neg hnotmem, List.head?_cons]
        refine ⟨t0, ht0mem, ht0key, hlink, ?_⟩
        intro ht
        rw [hlinkeq]
        rw [List.mem_filterMap]
        exact ⟨item, hmem, by rw [hlink, if_pos ht]⟩
  · rintro ⟨e, he, hkey, huid⟩
    have hne : ¬ jget (mapExistingItemsByKey ex) item.id = none := by
      rw [mapExisting_none_iff]
      push_neg
      exact ⟨e, he, hvalid e he, hkey⟩
    constructor
    · rw [hnew, List.mem_filter]
      rintro ⟨-, hnone⟩
      rw [Option.isNone_iff_eq_none] at hnone
      exact hne hnone
    · cases hj : jget (mapExistingItemsByKey ex) item.id with
      | none => exact absurd hj hne
      | some um =>
        have hin : user.userId ∈ um.map Prod.fst := by
          have : user.userId ∈ keyUsers (mapExistingItemsByKey ex) item.id := by
            rw [mapExisting_keyUsers]
            exact ⟨e, he, hvalid e he, hkey, huid⟩
          unfold keyUsers at this
          rw [hj, Option.getD_some] at this
          exact this
        simp only [linkOf, hj, if_pos hin]

/-- A stored row of user 1 under key `k1` carrying guid `x:1`. -/
def rowA : StoredItem :=
  { user_id := 1, key := "k1", title := "Alpha", type := "movie", thumb := none,
    guids := GuidsField.arr ["x:1"], genres := GuidsField.arr [], status := "pending" }

/-- A raw item reported by user 2 whose `id` differs from every stored key but
whose guids intersect `rowA`'s. -/
def rawB : TokenItem :=
  { id := "k2", title := "Alpha", type := "movie", thumb := none,
    guids := ["x:1"], genres := [] }

/-- A raw item reported by user 2 sharing `rowA`'s key. -/
def rawB1 : TokenItem :=
  { id := "k1", title := "Alpha", type := "movie", thumb := none,
    guids := ["x:1"], genres := [] }

/-- The identity of user 2. -/
def userB : Friend := { watchlistId := "b", username := "b", userId := 2 }

/-- C1 counterexample: user 2 reports a raw item whose id `k2` has no stored
row, while user 1's stored row `rowA` (a different user) has an intersecting
guid array; the Reconciler classifies the item as brand-new and creates no
linked row, so guid-array intersection does not decide content identity. -/
theorem linking_by_guid_intersection_cex :
    ("x:1" ∈ rawB.guids ∧ "x:1" ∈ decodeGuids rowA.guids)
    ∧ rowA.user_id ≠ userB.userId
    ∧ rowA.key ≠ rawB.id
    ∧ separateNewAndExistingItems [rawB] userB (mapExistingItemsByKey [rowA])
        = ⟨[rawB], []⟩ := by
  decide

/-- Witness for the C1 amended theorem at a concrete input. -/
theorem linking_decided_by_key_not_guids_witness :
    rawB ∈ (separateNewAndExistingItems [rawB] userB (mapExistingItemsByKey [rowA])).newItems :=
  (linking_decided_by_key_not_guids userB [rawB] [rowA] rawB
    (by decide) (by decide)).1 (by decide)

/-- Witness for the C2 theorem at a concrete input. -/
theorem separate_categorization_witness :
    CategorizationSpec userB [rawB1] [rowA] rawB1 :=
  separate_categorization userB [rawB1] [rowA] rawB1 (by decide) (by decide)

/-- Model of `new Set(array)` for primitive values: drop duplicates, keeping
the first occurrence, preserving order. -/
def jsSetAux {α : Type} [DecidableEq α] (seen : List α) : List α → List α
  | [] => []
  | a :: rest =>
    if a ∈ seen then jsSetAux seen rest else a :: jsSetAux (a :: seen) rest

/-- Model of `new Set(array)` starting from no seen elements. -/
def jsSet {α : Type} [DecidableEq α] (l : List α) : List α := jsSetAux [] l

theorem mem_jsSetAux {α : Type} [DecidableEq α] (seen l : List α) (b : α) :
    b ∈ jsSetAux seen l ↔ b ∈ l ∧ b ∉ seen := by
  induction l generalizing seen with
  | nil => simp [jsSetAux]
  | cons a rest ih =>
    by_cases ha : a ∈ seen
    · rw [jsSetAux, if_pos ha, ih]
      simp only [List.mem_cons]
      constructor
      · rintro ⟨h1, h2⟩
        exact ⟨Or.inr h1, h2⟩
      · rintro ⟨h1 | h1, h2⟩
        · exact absurd (h1 ▸ ha) h2
        · exact ⟨h1, h2⟩
    · rw [jsSetAux, if_neg ha]
      simp only [List.mem_cons, ih]
      constructor
      · rintro (h | ⟨h1, h2⟩)
        · exact ⟨Or.inl h, h ▸ ha⟩
        · simp only [List.mem_cons, not_or] at h2
          exact ⟨Or.inr h1, h2.2⟩
      · rintro ⟨h1 | h1, h2⟩
        · exact Or.inl h1
        · by_cases hba : b = a
          · exact Or.inl hba
          · exact Or.inr ⟨h1, by simp [hba, h2]⟩

theorem mem_jsSet {α : Type} [DecidableEq α] (l : List α) (b : α) :
    b ∈ jsSet l ↔ b ∈ l := by
  simp [jsSet, mem_jsSetAux]

/-- `handleRemovedItems` (service lines 907-922): compute
`storedKeys − fetchedKeys`; call `deleteWatchlistItems` (modelled as the
returned call descriptor) only when the difference is non-empty. -/
def handleRemovedItems (userId : Nat) (currentKeys fetchedKeys : List String) :
    Option (Nat × List String) :=
  if (currentKeys.filter (fun k => decide (k ∉ fetchedKeys))).length > 0
  then some (userId, currentKeys.filter (fun k => decide (k ∉ fetchedKeys)))
  else none

theorem handleRemovedItems_eq_none_iff (uid : Nat) (cur fet : List String) :
    handleRemovedItems uid cur fet = none
      ↔ cur.filter (fun k => decide (k ∉ fet)) = [] := by
  unfold handleRemovedItems
  by_cases h : (cur.filter (fun k => decide (k ∉ fet))).length > 0
  · rw [if_pos h]
    constructor
    · intro h2
      exact absurd h2 (by simp)
    · intro h2
      rw [h2] at h
      simp at h
  · rw [if_neg h]
    have h2 : cur.filter (fun k => decide (k ∉ fet)) = [] :=
      List.length_eq_zero.mp (Nat.eq_zero_of_not_pos h)
    exact iff_of_true rfl h2

theorem handleRemovedItems_eq_some (uid : Nat) (cur fet : List String)
    (c : Nat × List String) (hc : handleRemovedItems uid cur fet = some c) :
    c = (uid, cur.filter (fun k => decide (k ∉ fet))) := by
  unfold handleRemovedItems at hc
  by_cases h : (cur.filter (fun k => decide (k ∉ fet))).length > 0
  · rw [if_pos h] at hc
    exact (Option.some.inj hc).symm
  · rw [if_neg h] at hc
    exact absurd hc (by simp)

/-- `checkForRemovedItems` (service lines 924-936): for each identity, diff the
keys stored for its user id against the keys just fetched; `storedFor` models
`dbService.getAllWatchlistItemsForUser`.  Returns the list of delete calls
issued, in order. -/
def checkForRemovedItems (userWatchlistMap : List (Friend × List TokenItem))
    (storedFor : Nat → List StoredItem) : List (Nat × List String) :=
  match userWatchlistMap with
  | [] => []
  | (user, items) :: rest =>
    let currentKeys := jsSet ((storedFor user.userId).map StoredItem.key)
    let fetchedKeys := jsSet (items.map TokenItem.id)
    match handleRemovedItems user.userId currentKeys fetchedKeys with
    | some call => call :: checkForRemovedItems rest storedFor
    | none => checkForRemovedItems rest storedFor

theorem checkForRemoved_eq_filterMap (map : List (Friend × List TokenItem))
    (storedFor : Nat → List StoredItem) :
    checkForRemovedItems map storedFor
      = map.filterMap (fun p =>
          handleRemovedItems p.1.userId
            (jsSet ((storedFor p.1.userId).map StoredItem.key))
            (jsSet (p.2.map TokenItem.id))) := by
  induction map with
  | nil => rfl
  | cons hd rest ih =>
    obtain ⟨user, items⟩ := hd
    simp only [checkForRemovedItems, List.filterMap_cons]
    cases hc : handleRemovedItems user.userId
        (jsSet ((storedFor user.userId).map StoredItem.key))
        (jsSet (items.map TokenItem.id)) with
    | none => simpa [hc] using ih
    | some call => simpa [hc] using ih

/-- The removal-detector contract for one identity of the pass; see the C5
theorem below. -/
def RemovalSpec (userWatchlistMap : List (Friend × List TokenItem))
    (storedFor : Nat → List StoredItem) (user : Friend)
    (items : List TokenItem) : Prop :=
  (checkForRemovedItems userWatchlistMap storedFor
     = userWatchlistMap.filterMap (fun p =>
         handleRemovedItems p.1.userId
           (jsSet ((storedFor p.1.userId).map StoredItem.key))
           (jsSet (p.2.map TokenItem.id))))
  ∧ (handleRemovedItems user.userId
        (jsSet ((storedFor user.userId).map StoredItem.key))
        (jsSet (items.map TokenItem.id)) = none
      ↔ ∀ k ∈ (storedFor user.userId).map StoredItem.key, k ∈ items.map TokenItem.id)
  ∧ (∀ c, handleRemovedItems user.userId
        (jsSet ((storedFor user.userId).map StoredItem.key))
        (jsSet (items.map TokenItem.id)) = some c →
      c.1 = user.userId
      ∧ ∀ k, (k ∈ c.2 ↔
          k ∈ (storedFor user.userId).map StoredItem.key
          ∧ k ∉ items.map TokenItem.id))

/-- C5: per identity, the delete call carries exactly
`storedKeys − fetchedKeys`, and no call is made when that difference is
empty. -/
theorem removal_detector_spec (userWatchlistMap : List (Friend × List TokenItem))
    (storedFor : Nat → List StoredItem) (user : Friend) (items : List TokenItem)
    (hmem : (user, items) ∈ userWatchlistMap) :
    RemovalSpec userWatchlistMap storedFor user items := by
  refine ⟨checkForRemoved_eq_filterMap userWatchlistMap storedFor, ?_, ?_⟩
  · rw [handleRemovedItems_eq_none_iff, List.filter_eq_nil_iff]
    constructor
    · intro h k hk
      have := h k ((mem_jsSet _ _).mpr hk)
      simpa [mem_jsSet] using this
    · intro h k hk
      have hk2 : k ∈ (storedFor user.userId).map StoredItem.key :=
        (mem_jsSet _ _).mp hk
      simp [mem_jsSet, h k hk2]
  · intro c hc
    have hceq := handleRemovedItems_eq_some _ _ _ _ hc
    subst hceq
    refine ⟨rfl, ?_⟩
    intro k
    simp [List.mem_filter, mem_jsSet]

/-- Witness for the C5 theorem: stored key `k1` is absent from the fetch, so
the delete call for user 2 carries exactly `["k1"]`. -/
theorem removal_detector_spec_witness :
    RemovalSpec [(userB, [rawB])] (fun _ => [rowA]) userB [rawB] :=
  removal_detector_spec [(userB, [rawB])] (fun _ => [rowA]) userB [rawB]
    (List.mem_singleton.mpr rfl)

/-- A pending RSS row from the ephemeral store (`getTempRssItems` result):
a `TemptRssWatchlistItem` plus its row `id`.  Only `id` and `guids` are read
by the matching loop. -/
structure PendingItem where
  id : Nat
  title : String
  guids : List String
deriving DecidableEq

/-- The inner test of the matcher loops (service lines 811-827 and 864-882):
some GUID of the pending item occurs in the candidate's decoded guid array
(`typeof item.guids === 'string' ? JSON.parse(item.guids) : item.guids`). -/
def itemMatchesPending (pendingItem : PendingItem) (item : StoredItem) : Bool :=
  pendingItem.guids.any (fun guid => decide (guid ∈ decodeGuids item.guids))

/-- `matchRssPendingItemsSelf` / `matchRssPendingItemsFriends` (service lines
799-850 and 852-905): both run the same loop over the pending items of their
source; for each pending item the nested user/item loops `break` at the first
match and push the pending row's id.  The returned list models
`matchedItemIds`, deleted in a single `deleteTempRssItems` batch at the end
when non-empty. -/
def matchRssPendingItems (pendingItems : List PendingItem)
    (userWatchlistMap : List (Friend × List StoredItem)) : List Nat :=
  match pendingItems with
  | [] => []
  | p :: rest =>
    if userWatchlistMap.any (fun q => q.2.any (fun item => itemMatchesPending p item))
    then p.id :: matchRssPendingItems rest userWatchlistMap
    else matchRssPendingItems rest userWatchlistMap

theorem matchRss_subset (pendingItems : List PendingItem)
    (m : List (Friend × List StoredItem)) (x : Nat)
    (hx : x ∈ matchRssPendingItems pendingItems m) :
    x ∈ pendingItems.map PendingItem.id := by
  induction pendingItems with
  | nil => simpa [matchRssPendingItems] using hx
  | cons p rest ih =>
    rw [matchRssPendingItems] at hx
    by_cases hp : m.any (fun q => q.2.any (fun item => itemMatchesPending p item))
    · rw [if_pos hp] at hx
      rcases List.mem_cons.mp hx with h | h
      · exact h ▸ List.mem_cons_self _ _
      · exact List.mem_cons_of_mem _ (ih h)
    · rw [if_neg hp] at hx
      exact List.mem_cons_of_mem _ (ih hx)

/-- The matcher contract for one pending item; see the C7 theorem below. -/
def MatcherSpec (pendingItems : List PendingItem)
    (userWatchlistMap : List (Friend × List StoredItem)) (p : PendingItem) : Prop :=
  p.id ∈ matchRssPendingItems pendingItems userWatchlistMap ↔
    ∃ q ∈ userWatchlistMap, ∃ item ∈ q.2, ∃ guid ∈ p.guids,
      guid ∈ decodeGuids item.guids

/-- C7: a pending item's row id is in the single deletion batch iff one of its
guids occurs in the decoded guid array of some item of the fresh
reconciliation result; an unmatched pending item is never deleted. -/
theorem matcher_spec (pendingItems : List PendingItem)
    (userWatchlistMap : List (Friend × List StoredItem)) (p : PendingItem)
    (hmem : p ∈ pendingItems)
    (hnodup : (pendingItems.map PendingItem.id).Nodup) :
    MatcherSpec pendingItems userWatchlistMap p := by
  unfold MatcherSpec
  induction pendingItems with
  | nil => exact absurd hmem (List.not_mem_nil p)
  | cons q rest ih =>
    rw [List.map_cons, List.nodup_cons] at hnodup
    obtain ⟨hqid, hrestnodup⟩ := hnodup
    rw [matchRssPendingItems]
    rcases List.mem_cons.mp hmem with hpq | hprest
    · subst hpq
      have hnotrest : p.id ∉ matchRssPendingItems rest userWatchlistMap :=
        fun h => hqid (matchRss_subset rest userWatchlistMap p.id h)
      by_cases hp : userWatchlistMap.any
          (fun q2 => q2.2.any (fun item => itemMatchesPending p item))
      · rw [if_pos hp]
        simp only [List.mem_cons, hnotrest, or_false]
        constructor
        · intro _
          simpa [itemMatchesPending] using hp
        · intro _
          trivial
      · rw [if_neg hp]
        constructor
        · intro h
          exact absurd h hnotrest
        · intro h
          exact absurd (by simpa [itemMatchesPending] using h) hp
    · have hqp : q.id ≠ p.id := by
        intro h
        exact hqid (h ▸ List.mem_map_of_mem PendingItem.id hprest)
      have := ih hprest hrestnodup
      by_cases hp : userWatchlistMap.any
          (fun q2 => q2.2.any (fun item => itemMatchesPending q item))
      · rw [if_pos hp]
        rw [List.mem_cons]
        constructor
        · rintro (h | h)
          · exact absurd h.symm hqp
          · exact this.mp h
        · intro h
          exact Or.inr (this.mpr h)
      · rw [if_neg hp]
        exact this

/-- A pending item carrying guid `x:1`, matched by `rowA`. -/
def pendingP : PendingItem := { id := 7, title := "Alpha", guids := ["x:1"] }

/-- An unmatched pending item. -/
def pendingQ : PendingItem := { id := 8, title := "Beta", guids := ["y:9"] }

/-- Witness for the C7 theorem: `pendingP` is matched and `pendingQ` is not. -/
theorem matcher_spec_witness :
    MatcherSpec [pendingP, pendingQ] [(userB, [rowA])] pendingP :=
  matcher_spec [pendingP, pendingQ] [(userB, [rowA])] pendingP
    (by decide) (by decide)

/-- An item of an RSS snapshot map, as produced by `mapRssItemsToWatchlist`:
`{ title, plexKey, type, thumb, guids, genres, status }` with `guids` and
`genres` already normalized to arrays. -/
structure RssItem where
  title : String
  plexKey : String
  type : String
  thumb : Option String
  guids : List String
  genres : List String
deriving DecidableEq

/-- A `TemptRssWatchlistItem` as built by `convertToTempItem`. -/
structure TemptItem where
  title : String
  type : String
  thumb : Option String
  guids : List String
  genres : List String
  key : String
deriving DecidableEq

/-- `convertToTempItem` (plugin lines 213-222). -/
def convertToTempItem (item : RssItem) : TemptItem :=
  { title := item.title
    type := item.type
    thumb := item.thumb
    guids := item.guids
    genres := item.genres
    key := item.plexKey }

/-- `createItemMap` (plugin lines 96-106): key each item by its first GUID;
items without any GUID are not representable in the map. -/
def createItemMap (items : List RssItem) : List (String × RssItem) :=
  items.foldl
    (fun itemMap item =>
      match item.guids with
      | [] => itemMap
      | g :: _ => jset itemMap g item)
    []

/-- The modification test of `detectChanges` (plugin lines 170-176): the
`JSON.stringify` comparison of two genre string arrays agrees with list
equality, and `!==` on the primitive fields is value inequality. -/
def rssItemChanged (previousItem currentItem : RssItem) : Bool :=
  decide (previousItem.title ≠ currentItem.title
    ∨ previousItem.type ≠ currentItem.type
    ∨ previousItem.thumb ≠ currentItem.thumb
    ∨ previousItem.genres ≠ currentItem.genres)

/-- Whether `detectChanges` emits the current entry `(guid, item)`: new when
the guid is absent from the previous snapshot, modified when present but
changed. -/
def rssEmit (previousItems : List (String × RssItem)) (p : String × RssItem) :
    Bool :=
  match jget previousItems p.1 with
  | none => true
  | some previousItem => rssItemChanged previousItem p.2

/-- `detectChanges` (plugin lines 154-211): iterate the current snapshot map in
order, emitting the conversion of each new or modified item.  Entries of the
previous snapshot that are absent from the current one are only logged, so
they contribute nothing to the result. -/
def detectChanges (previousItems currentItems : List (String × RssItem)) :
    List TemptItem :=
  match currentItems with
  | [] => []
  | (guid, currentItem) :: rest =>
    let tail := detectChanges previousItems rest
    match jget previousItems guid with
    | none => convertToTempItem currentItem :: tail
    | some previousItem =>
      if rssItemChanged previousItem currentItem
      then convertToTempItem currentItem :: tail
      else tail

/-- The change-detector contract; see the C4 theorem below. -/
def DetectSpec (previousItems currentItems : List (String × RssItem)) : Prop :=
  (detectChanges previousItems currentItems
      = (currentItems.filter (rssEmit previousItems)).map
          (fun p => convertToTempItem p.2))
  ∧ (∀ guid currentItem, (guid, currentItem) ∈ currentItems →
      (rssEmit previousItems (guid, currentItem) = true ↔
        jget previousItems guid = none
        ∨ ∃ previousItem, jget previousItems guid = some previousItem
            ∧ (previousItem.title ≠ currentItem.title
              ∨ previousItem.type ≠ currentItem.type
              ∨ previousItem.thumb ≠ currentItem.thumb
              ∨ previousItem.genres ≠ currentItem.genres)))
  ∧ (∀ t ∈ detectChanges previousItems currentItems,
      ∃ p ∈ currentItems, t = convertToTempItem p.2)

/-- C4: an entry of the current snapshot is emitted iff it is new (absent from
the previous snapshot) or modified in title, type, thumb or genres; every
emitted change is the conversion of a current entry, so items that disappeared
from the snapshot are never emitted. -/
theorem detectChanges_spec (previousItems currentItems : List (String × RssItem)) :
    DetectSpec previousItems currentItems := by
  refine ⟨?_, ?_, ?_⟩
  · induction currentItems with
    | nil => rfl
    | cons p rest ih =>
      obtain ⟨guid, currentItem⟩ := p
      rw [detectChanges]
      cases hj : jget previousItems guid with
      | none =>
        simp [List.filter_cons, rssEmit, hj, ih]
      | some previousItem =>
        by_cases hc : rssItemChanged previousItem currentItem
        · simp [List.filter_cons, rssEmit, hj, hc, ih]
        · simp [List.filter_cons, rssEmit, hj, hc, ih]
  · intro guid currentItem _
    unfold rssEmit
    cases hj : jget previousItems guid with
    | none => simp
    | some previousItem =>
      simp only [rssItemChanged, decide_eq_true_eq, reduceCtorEq, false_or]
      constructor
      · intro h
        exact ⟨previousItem, rfl, h⟩
      · rintro ⟨q, hq, h⟩
        exact (Option.some.inj hq) ▸ h
  · intro t ht
    induction currentItems with
    | nil => simpa [detectChanges] using ht
    | cons p rest ih =>
      obtain ⟨guid, currentItem⟩ := p
      rw [detectChanges] at ht
      cases hj : jget previousItems guid with
      | none =>
        rw [hj] at ht
        rcases List.mem_cons.mp ht with h | h
        · exact ⟨(guid, currentItem), List.mem_cons_self _ _, h⟩
        · obtain ⟨p2, hp2, hp3⟩ := ih h
          exact ⟨p2, List.mem_cons_of_mem _ hp2, hp3⟩
      | some previousItem =>
        rw [hj] at ht
        have ht2 : t ∈ (if rssItemChanged previousItem currentItem
            then convertToTempItem currentItem :: detectChanges previousItems rest
            else detectChanges previousItems rest) := ht
        by_cases hc : rssItemChanged previousItem currentItem
        · rw [if_pos hc] at ht2
          rcases List.mem_cons.mp ht2 with h | h
          · exact ⟨(guid, currentItem), List.mem_cons_self _ _, h⟩
          · obtain ⟨p2, hp2, hp3⟩ := ih h
            exact ⟨p2, List.mem_cons_of_mem _ hp2, hp3⟩
        · rw [if_neg hc] at ht2
          obtain ⟨p2, hp2, hp3⟩ := ih ht2
          exact ⟨p2, List.mem_cons_of_mem _ hp2, hp3⟩

/-- An RSS snapshot item with guid `g1` and title `Old`. -/
def rssOld : RssItem :=
  { title := "Old", plexKey := "pk1", type := "movie", thumb := none,
    guids := ["g1"], genres := [] }

/-- The same content seen with title `New` on the next poll. -/
def rssNew : RssItem :=
  { title := "New", plexKey := "pk1", type := "movie", thumb := none,
    guids := ["g1"], genres := [] }

/-- Witness for the C4 theorem: a one-item snapshot whose title changed. -/
theorem detectChanges_spec_witness :
    DetectSpec (createItemMap [rssOld]) (createItemMap [rssNew]) :=
  detectChanges_spec (createItemMap [rssOld]) (createItemMap [rssNew])

/-- A JavaScript object holding a `TemptRssWatchlistItem`: `oid` is the
object's reference identity (each `convertToTempItem` call allocates a fresh
object, so each tick produces refs with new `oid`s), `val` its value.  A JS
`Set` of objects compares members by reference, i.e. by `oid`. -/
structure QueuedRef where
  oid : Nat
  val : TemptItem
deriving DecidableEq

/-- The mutable state of `PlexTestingWorkflow` read by the queue code. -/
structure QueueState where
  isRefreshing : Bool
  changeQueue : List QueuedRef
  lastQueueItemTime : Nat
deriving DecidableEq

/-- `this.changeQueue.has(item)`: JS `Set.has` on objects is reference
identity. -/
def setHasRef (q : List QueuedRef) (x : QueuedRef) : Bool :=
  q.any (fun y => y.oid == x.oid)

/-- The `for` loop of `addToQueue` (plugin lines 230-235): append each item not
already in the queue by reference, tracking whether anything was added. -/
def addToQueueLoop (queue : List QueuedRef) (items : List QueuedRef)
    (hasNewItems : Bool) : List QueuedRef × Bool :=
  match items with
  | [] => (queue, hasNewItems)
  | x :: rest =>
    if setHasRef queue x
    then addToQueueLoop queue rest hasNewItems
    else addToQueueLoop (queue ++ [x]) rest true

/-- `addToQueue` (plugin lines 224-250): run the loop; when anything new was
added, bump `lastQueueItemTime` to now (and store the tick's items, modelled
by the returned Bool). -/
def addToQueue (st : QueueState) (items : List QueuedRef) (now : Nat) :
    QueueState × Bool :=
  match addToQueueLoop st.changeQueue items false with
  | (queue, hasNewItems) =>
    if hasNewItems
    then ({ st with changeQueue := queue, lastQueueItemTime := now }, true)
    else ({ st with changeQueue := queue }, false)

theorem setHasRef_append (q : List QueuedRef) (x y : QueuedRef) :
    setHasRef (q ++ [x]) y = (setHasRef q y || (x.oid == y.oid)) := by
  simp [setHasRef, List.any_append, BEq.comm]

theorem addToQueueLoop_eq :
    ∀ (items queue : List QueuedRef) (b : Bool),
    (items.map QueuedRef.oid).Nodup →
    addToQueueLoop queue items b
      = (queue ++ items.filter (fun x => !(setHasRef queue x)),
         (b || items.any (fun x => !(setHasRef queue x)))) := by
  intro items
  induction items with
  | nil =>
    intro queue b _
    simp [addToQueueLoop]
  | cons x rest ih =>
    intro queue b hnd
    rw [List.map_cons, List.nodup_cons] at hnd
    obtain ⟨hx, hrest⟩ := hnd
    have hpred : ∀ y ∈ rest,
        (!(setHasRef (queue ++ [x]) y)) = (!(setHasRef queue y)) := by
      intro y hy
      have hoid : (x.oid == y.oid) = false := by
        rw [beq_eq_false_iff_ne]
        intro h
        exact hx (h ▸ List.mem_map_of_mem QueuedRef.oid hy)
      rw [setHasRef_append, hoid, Bool.or_false]
    rw [addToQueueLoop]
    by_cases hhas : setHasRef queue x
    · rw [if_pos hhas, ih queue b hrest]
      have hxp : (!(setHasRef queue x)) = false := by
        simp [hhas]
      simp [List.filter_cons, List.any_cons, hxp]
    · rw [if_neg hhas, ih (queue ++ [x]) true hrest]
      have hxp : (!(setHasRef queue x)) = true := by
        simp [hhas]
      have hfil : rest.filter (fun y => !(setHasRef (queue ++ [x]) y))
          = rest.filter (fun y => !(setHasRef queue y)) :=
        List.filter_congr hpred
      refine Prod.ext ?_ ?_
      · simp [List.filter_cons, hxp, hfil, List.append_assoc]
      · simp [List.any_cons, hxp]

/-- The queue contract under reference identity; see the C6 theorem below. -/
def AddToQueueSpec (st : QueueState) (items : List QueuedRef) (now : Nat) : Prop :=
  (addToQueue st items now).1.changeQueue
      = st.changeQueue ++ items.filter (fun x => !(setHasRef st.changeQueue x))
  ∧ ((addToQueue st items now).2 = true ↔
      items.filter (fun x => !(setHasRef st.changeQueue x)) ≠ [])
  ∧ (addToQueue st items now).1.lastQueueItemTime
      = (if (addToQueue st items now).2 then now else st.lastQueueItemTime)
  ∧ (addToQueue st items now).1.isRefreshing = st.isRefreshing

/-- C6 (amended form): `addToQueue` deduplicates by object reference, not by
value: it appends exactly the items whose reference is not already in the
queue, and bumps `lastQueueItemTime` iff at least one such item was
appended. -/
theorem addToQueue_eq (st : QueueState) (items : List QueuedRef) (now : Nat)
    (hnd : (items.map QueuedRef.oid).Nodup) :
    addToQueue st items now
      = (if items.any (fun x => !(setHasRef st.changeQueue x))
         then ({ st with
                  changeQueue := st.changeQueue
                    ++ items.filter (fun x => !(setHasRef st.changeQueue x)),
                  lastQueueItemTime := now }, true)
         else ({ st with
                  changeQueue := st.changeQueue
                    ++ items.filter (fun x => !(setHasRef st.changeQueue x)) },
               false)) := by
  unfold addToQueue
  rw [addToQueueLoop_eq items st.changeQueue false hnd]
  simp only [Bool.false_or]

theorem addToQueue_reference_dedup (st : QueueState) (items : List QueuedRef)
    (now : Nat) (hnd : (items.map QueuedRef.oid).Nodup) :
    AddToQueueSpec st items now := by
  have heq := addToQueue_eq st items now hnd
  unfold AddToQueueSpec
  by_cases hany : items.any (fun x => !(setHasRef st.changeQueue x)) = true
  · have hne : items.filter (fun x => !(setHasRef st.changeQueue x)) ≠ [] := by
      rw [List.any_eq_true] at hany
      obtain ⟨x, hxmem, hxp⟩ := hany
      exact List.ne_nil_of_mem (List.mem_filter.mpr ⟨hxmem, hxp⟩)
    rw [heq, if_pos hany]
    exact ⟨rfl, iff_of_true rfl hne, rfl, rfl⟩
  · have hanyf : items.any (fun x => !(setHasRef st.changeQueue x)) = false := by
      cases hb : items.any (fun x => !(setHasRef st.changeQueue x))
      · rfl
      · exact absurd hb hany
    have hfil : items.filter (fun x => !(setHasRef st.changeQueue x)) = [] := by
      rw [List.filter_eq_nil_iff]
      intro x hxmem
      rw [List.any_eq_false] at hanyf
      exact hanyf x hxmem
    rw [heq, if_neg hany]
    refine ⟨rfl, iff_of_false (by simp) (by simp [hfil]), rfl, rfl⟩

/-- The value stored in the two distinct queue objects below. -/
def tempA : TemptItem :=
  { title := "Alpha", type := "movie", thumb := none,
    guids := ["x:1"], genres := [], key := "k1" }

/-- A queued object holding `tempA`. -/
def qref0 : QueuedRef := { oid := 0, val := tempA }

/-- A distinct object (fresh allocation) holding the same value `tempA`. -/
def qref1 : QueuedRef := { oid := 1, val := tempA }

/-- A state whose queue already holds `qref0`. -/
def qstate0 : QueueState :=
  { isRefreshing := false, changeQueue := [qref0], lastQueueItemTime := 5 }

/-- C6 counterexample: adding a freshly allocated item whose value equals one
already queued: it is added a second time (the `Set` compares references), so
the queue then holds two value-identical `TransientRssItem`s, and
`lastQueueItemTime` is bumped although no value-new item arrived. -/
theorem queue_value_dedup_cex :
    qref0.val = qref1.val
    ∧ (addToQueue qstate0 [qref1] 99).1.changeQueue = [qref0, qref1]
    ∧ ((addToQueue qstate0 [qref1] 99).1.changeQueue.map QueuedRef.val)
        = [tempA, tempA]
    ∧ (addToQueue qstate0 [qref1] 99).1.lastQueueItemTime = 99 := by
  decide

/-- Witness for the C6 amended theorem at a concrete input. -/
theorem addToQueue_reference_dedup_witness : AddToQueueSpec qstate0 [qref1] 99 :=
  addToQueue_reference_dedup qstate0 [qref1] 99 (by decide)

/-- Whether the awaited `fetchWatchlists()` of a tick resolves or rejects. -/
inductive RefreshOutcome where
  | success
  | failure
deriving DecidableEq

/-- One tick of `startQueueProcessor` (plugin lines 252-278): skip the tick if
a refresh is in flight; otherwise, when the queue is non-empty and at least
60000 ms have passed since the last queued item, clear the queue and refresh.
`try/finally` releases the `isRefreshing` guard whatever `outcome` is; the
rejection is only logged.  The Bool records whether a refresh was started. -/
def queueTick (st : QueueState) (now : Nat) (outcome : RefreshOutcome) :
    QueueState × Bool :=
  if st.isRefreshing then (st, false)
  else if 60000 ≤ now - st.lastQueueItemTime ∧ st.changeQueue ≠ [] then
    ({ isRefreshing := false, changeQueue := [],
       lastQueueItemTime := st.lastQueueItemTime }, true)
  else (st, false)

/-- The queue-processor tick contract; see the C3 theorem below. -/
def QueueTickSpec (st : QueueState) (now : Nat) (outcome : RefreshOutcome) : Prop :=
  ((queueTick st now outcome).2 = true ↔
    st.isRefreshing = false ∧ st.changeQueue ≠ []
      ∧ 60000 ≤ now - st.lastQueueItemTime)
  ∧ ((queueTick st now outcome).2 = true →
      (queueTick st now outcome).1.changeQueue = []
      ∧ (queueTick st now outcome).1.isRefreshing = false)
  ∧ (st.isRefreshing = true → queueTick st now outcome = (st, false))
  ∧ queueTick st now RefreshOutcome.failure = queueTick st now RefreshOutcome.success

/-- C3 (amended form): a refresh starts iff no refresh is in flight, the queue
is non-empty, and at least 60 seconds (inclusive) have elapsed since the last
queued item; starting clears the queue; the guard is released whether the
refresh resolves or throws, so the tick result is outcome-independent. -/
theorem queueTick_of_refreshing (st : QueueState) (now : Nat)
    (outcome : RefreshOutcome) (hr : st.isRefreshing = true) :
    queueTick st now outcome = (st, false) := by
  unfold queueTick
  rw [if_pos hr]

theorem queueTick_of_fire (st : QueueState) (now : Nat)
    (outcome : RefreshOutcome) (hr : st.isRefreshing = false)
    (hc : 60000 ≤ now - st.lastQueueItemTime ∧ st.changeQueue ≠ []) :
    queueTick st now outcome
      = ({ isRefreshing := false, changeQueue := [],
           lastQueueItemTime := st.lastQueueItemTime }, true) := by
  unfold queueTick
  rw [if_neg (by simp [hr]), if_pos hc]

theorem queueTick_of_skip (st : QueueState) (now : Nat)
    (outcome : RefreshOutcome) (hr : st.isRefreshing = false)
    (hc : ¬(60000 ≤ now - st.lastQueueItemTime ∧ st.changeQueue ≠ [])) :
    queueTick st now outcome = (st, false) := by
  unfold queueTick
  rw [if_neg (by simp [hr]), if_neg hc]

theorem queueTick_spec (st : QueueState) (now : Nat) (outcome : RefreshOutcome) :
    QueueTickSpec st now outcome := by
  unfold QueueTickSpec
  by_cases hr : st.isRefreshing = true
  · rw [queueTick_of_refreshing st now outcome hr,
      queueTick_of_refreshing st now RefreshOutcome.failure hr,
      queueTick_of_refreshing st now RefreshOutcome.success hr]
    refine ⟨iff_of_false (by simp) ?_, ?_, fun _ => rfl, rfl⟩
    · rintro ⟨h1, -, -⟩
      rw [hr] at h1
      cases h1
    · intro h
      cases h
  · have hr2 : st.isRefreshing = false := by
      cases hb : st.isRefreshing
      · rfl
      · exact absurd hb hr
    by_cases hc : 60000 ≤ now - st.lastQueueItemTime ∧ st.changeQueue ≠ []
    · rw [queueTick_of_fire st now outcome hr2 hc,
        queueTick_of_fire st now RefreshOutcome.failure hr2 hc,
        queueTick_of_fire st now RefreshOutcome.success hr2 hc]
      exact ⟨iff_of_true rfl ⟨hr2, hc.2, hc.1⟩, fun _ => ⟨rfl, rfl⟩,
        fun h => absurd h hr, rfl⟩
    · rw [queueTick_of_skip st now outcome hr2 hc,
        queueTick_of_skip st now RefreshOutcome.failure hr2 hc,
        queueTick_of_skip st now RefreshOutcome.success hr2 hc]
      refine ⟨iff_of_false (by simp) ?_, ?_, fun _ => rfl, rfl⟩
      · rintro ⟨-, h2, h3⟩
        exact hc ⟨h3, h2⟩
      · intro h
        cases h

/-- A state one item in queue and last activity at time 0. -/
def qstateBoundary : QueueState :=
  { isRefreshing := false, changeQueue := [qref0], lastQueueItemTime := 0 }

/-- C3 counterexample: at elapsed time exactly 60000 ms the code starts a
refresh (its check is `>= 60000`), although 60000 does not exceed the
60-second threshold. -/
theorem quiet_threshold_boundary_cex :
    (queueTick qstateBoundary 60000 RefreshOutcome.success).2 = true
    ∧ ¬ (60000 - qstateBoundary.lastQueueItemTime > 60000) := by
  decide

/-- Witness for the C3 theorem at a concrete input. -/
theorem queueTick_spec_witness : QueueTickSpec qstate0 70000 RefreshOutcome.failure :=
  queueTick_spec qstate0 70000 RefreshOutcome.failure

/-- The value of `generateAndSaveRssFeeds`: either an error-valued object
`{ error }` or the `{ self, friends }` feed URLs.  Note this is a *returned*
value, distinct from a thrown error (`Except.error`). -/
inductive RssFeedsResponse where
  | err : String → RssFeedsResponse
  | feeds : String → String → RssFeedsResponse
deriving DecidableEq

/-- The control flow of `getSelfWatchlist` (service lines 50-87) around its
configuration and collection failures: throw with no tokens, throw when the
collected identity map is empty, otherwise proceed with the map.
`userWatchlistMap` is the result of the parallel fan-out collection. -/
def getSelfWatchlistGate (plexTokens : List String)
    (userWatchlistMap : List (Friend × List TokenItem)) :
    Except String (List (Friend × List TokenItem)) :=
  if plexTokens.length = 0 then Except.error "No Plex token configured"
  else if userWatchlistMap.length = 0 then
    Except.error "Unable to fetch watchlist items"
  else Except.ok userWatchlistMap

/-- The corresponding control flow of `getOthersWatchlists` (service lines
170-205). -/
def getOthersWatchlistsGate (plexTokens : List String)
    (userWatchlistMap : List (Friend × List TokenItem)) :
    Except String (List (Friend × List TokenItem)) :=
  if plexTokens.length = 0 then Except.error "No Plex token configured"
  else if userWatchlistMap.length = 0 then
    Except.error "Unable to fetch others\x27 watchlist items"
  else Except.ok userWatchlistMap

/-- `generateAndSaveRssFeeds` (service lines 138-168): with no tokens it
*returns* `{ error: 'No Plex token configured' }` instead of throwing; with no
URLs it returns `{ error: 'Unable to fetch watchlist URLs' }`; otherwise it
returns the first and second fetched URL (empty string when missing).
`watchlistUrls` is the result of `getPlexWatchlistUrls`. -/
def generateAndSaveRssFeeds (plexTokens : List String)
    (watchlistUrls : List String) : Except String RssFeedsResponse :=
  if plexTokens.length = 0 then
    Except.ok (RssFeedsResponse.err "No Plex token configured")
  else if watchlistUrls.length = 0 then
    Except.ok (RssFeedsResponse.err "Unable to fetch watchlist URLs")
  else Except.ok (RssFeedsResponse.feeds (watchlistUrls.getD 0 "")
    (watchlistUrls.getD 1 ""))

/-- The error-surfacing contract; see the C8 theorem below. -/
def ConfigErrorSpec (plexTokens : List String)
    (userWatchlistMap othersMap : List (Friend × List TokenItem))
    (watchlistUrls : List String) : Prop :=
  (plexTokens = [] →
    getSelfWatchlistGate plexTokens userWatchlistMap
        = Except.error "No Plex token configured"
    ∧ getOthersWatchlistsGate plexTokens othersMap
        = Except.error "No Plex token configured")
  ∧ (plexTokens ≠ [] → userWatchlistMap = [] →
      getSelfWatchlistGate plexTokens userWatchlistMap
        = Except.error "Unable to fetch watchlist items")
  ∧ (plexTokens ≠ [] → othersMap = [] →
      getOthersWatchlistsGate plexTokens othersMap
        = Except.error "Unable to fetch others\x27 watchlist items")
  ∧ (plexTokens ≠ [] → userWatchlistMap ≠ [] →
      getSelfWatchlistGate plexTokens userWatchlistMap = Except.ok userWatchlistMap)
  ∧ (plexTokens = [] →
      generateAndSaveRssFeeds plexTokens watchlistUrls
        = Except.ok (RssFeedsResponse.err "No Plex token configured"))

/-- C8 (amended form): `getSelfWatchlist` and `getOthersWatchlists` throw on a
missing token configuration and on an empty collected map (with their exact
messages), but `generateAndSaveRssFeeds` surfaces the same configuration error
as an error-valued *return*, not a throw. -/
theorem config_error_surfacing (plexTokens : List String)
    (userWatchlistMap othersMap : List (Friend × List TokenItem))
    (watchlistUrls : List String) :
    ConfigErrorSpec plexTokens userWatchlistMap othersMap watchlistUrls := by
  unfold ConfigErrorSpec getSelfWatchlistGate getOthersWatchlistsGate
    generateAndSaveRssFeeds
  refine ⟨?_, ?_, ?_, ?_, ?_⟩
  · intro h
    subst h
    exact ⟨rfl, rfl⟩
  · intro h hm
    rw [if_neg (by simp [h]), hm]
    rfl
  · intro h hm
    rw [if_neg (by simp [h]), hm]
    rfl
  · intro h hm
    rw [if_neg (by simp [h]), if_neg (by simp [hm])]
  · intro h
    subst h
    rfl

/-- C8 counterexample: with no Plex tokens configured, `generateAndSaveRssFeeds`
returns normally with an error-valued result (`{ error: ... }`) rather than
throwing, so configuration errors are not surfaced as thrown errors by every
core operation. -/
theorem generateAndSaveRssFeeds_returns_error_value_cex :
    generateAndSaveRssFeeds [] ["https:example"]
        = Except.ok (RssFeedsResponse.err "No Plex token configured")
    ∧ (generateAndSaveRssFeeds [] ["https:example"]).isOk = true :=
  ⟨rfl, rfl⟩

/-- Witness for the C8 theorem at a concrete input. -/
theorem config_error_surfacing_witness :
    ConfigErrorSpec ["tok1"] [] [(userB, [rawB])] ["u1", "u2"] :=
  config_error_surfacing ["tok1"] [] [(userB, [rawB])] ["u1", "u2"]

/-- `pingPlex` (service lines 34-48): throw when no tokens are configured,
otherwise ping every token in parallel and return whether every ping
returned `true`.  `ping` models the boolean outcome of the `pingPlex` utility
per token. -/
def pingPlexService (plexTokens : List String) (ping : String → Bool) :
    Except String Bool :=
  if plexTokens.length = 0 then Except.error "No Plex tokens configured"
  else Except.ok ((plexTokens.map ping).all (fun result => result == true))

/-- The ping contract; see the C9 theorem below. -/
def PingSpec (plexTokens : List String) (ping : String → Bool) : Prop :=
  (plexTokens = [] →
    pingPlexService plexTokens ping = Except.error "No Plex tokens configured")
  ∧ (plexTokens ≠ [] →
      pingPlexService plexTokens ping
        = Except.ok (decide (∀ t ∈ plexTokens, ping t = true)))
  ∧ (plexTokens ≠ [] → (∃ t ∈ plexTokens, ping t = false) →
      pingPlexService plexTokens ping = Except.ok false)

/-- C9: `pingPlex` throws on an empty token list; otherwise it returns `true`
iff every token's ping returned `true`, and returns `false` (instead of
throwing) when some ping returned `false`. -/
theorem pingPlex_spec (plexTokens : List String) (ping : String → Bool) :
    PingSpec plexTokens ping := by
  have hall : (plexTokens.map ping).all (fun result => result == true)
      = decide (∀ t ∈ plexTokens, ping t = true) := by
    by_cases h : ∀ t ∈ plexTokens, ping t = true
    · rw [decide_eq_true h]
      rw [List.all_eq_true]
      intro x hx
      rw [List.mem_map] at hx
      obtain ⟨t, ht, rfl⟩ := hx
      simp [h t ht]
    · rw [decide_eq_false h]
      rw [← Bool.not_eq_true, List.all_eq_true]
      intro hcon
      refine h ?_
      intro t ht
      have := hcon (ping t) (List.mem_map_of_mem ping ht)
      simpa using this
  unfold PingSpec pingPlexService
  refine ⟨?_, ?_, ?_⟩
  · intro h
    subst h
    rfl
  · intro h
    rw [if_neg (by simp [h]), hall]
  · intro h hex
    rw [if_neg (by simp [h]), hall]
    have : decide (∀ t ∈ plexTokens, ping t = true) = false := by
      apply decide_eq_false
      intro hall2
      obtain ⟨t, ht, hf⟩ := hex
      rw [hall2 t ht] at hf
      cases hf
    rw [this]

/-- Witness for the C9 theorem at a concrete input. -/
theorem pingPlex_spec_witness :
    PingSpec ["tok1", "tok2"] (fun t => t == "tok1") :=
  pingPlex_spec ["tok1", "tok2"] (fun t => t == "tok1")

/-- The observable side effects of `processAndSaveNewItems`, in program
order. -/
inductive Effect where
  | emitStart
  | emitSaving
  | createItems (items : List StoredItem)
  | syncGenres
  | emitComplete
deriving DecidableEq

/-- `prepareItemsForInsertion` (service lines 554-571): flatten the processed
map into insert rows for each user. -/
def prepareItemsForInsertion (processedItems : List (Friend × List StoredItem)) :
    List StoredItem :=
  (processedItems.map (fun p => p.2.map (fun item =>
    ({ user_id := p.1.userId, key := item.key, title := item.title,
       type := item.type, thumb := item.thumb, guids := item.guids,
       genres := item.genres, status := "pending" } : StoredItem)))).join

/-- `processAndSaveNewItems` (service lines 379-455): return immediately on an
empty brand-new map; otherwise emit `start` (when the progress sink has
listeners, `emitProgress`), hand the map to the external
`processWatchlistItems` (its result is the parameter `processedItems`), and
only when at least one row was prepared: emit `saving`, write the rows, resync
the genre index and emit `complete`. -/
def processAndSaveNewItems (brandNewItems : List (Friend × List TokenItem))
    (emitProgress : Bool) (processedItems : List (Friend × List StoredItem)) :
    List (Friend × List StoredItem) × List Effect :=
  if brandNewItems = [] then ([], [])
  else if (prepareItemsForInsertion processedItems).length > 0 then
    (processedItems,
      (if emitProgress then [Effect.emitStart] else [])
      ++ (if emitProgress then [Effect.emitSaving] else [])
      ++ [Effect.createItems (prepareItemsForInsertion processedItems),
          Effect.syncGenres]
      ++ (if emitProgress then [Effect.emitComplete] else []))
  else (processedItems, if emitProgress then [Effect.emitStart] else [])

/-- The frame contract of `processAndSaveNewItems`; see the C10 theorem
below. -/
def ProcessSaveSpec (brandNewItems : List (Friend × List TokenItem))
    (emitProgress : Bool) (processedItems : List (Friend × List StoredItem)) :
    Prop :=
  (brandNewItems = [] →
    processAndSaveNewItems brandNewItems emitProgress processedItems = ([], []))
  ∧ (brandNewItems ≠ [] →
      (processAndSaveNewItems brandNewItems emitProgress processedItems).1
        = processedItems)
  ∧ (∀ eff ∈ (processAndSaveNewItems brandNewItems emitProgress processedItems).2,
      (eff = Effect.emitSaving ∨ eff = Effect.syncGenres
        ∨ eff = Effect.emitComplete
        ∨ eff = Effect.createItems (prepareItemsForInsertion processedItems))
      → prepareItemsForInsertion processedItems ≠ [])

/-- C10: an empty brand-new map yields an empty result with no storage write,
no genre resync and no progress events; and the write, the resync and the
`saving`/`complete` events occur only when at least one row was prepared for
insertion. -/
theorem processAndSaveNewItems_frame (brandNewItems : List (Friend × List TokenItem))
    (emitProgress : Bool) (processedItems : List (Friend × List StoredItem)) :
    ProcessSaveSpec brandNewItems emitProgress processedItems := by
  unfold ProcessSaveSpec processAndSaveNewItems
  by_cases hb : brandNewItems = []
  · rw [if_pos hb]
    refine ⟨fun _ => rfl, fun h => absurd hb h, ?_⟩
    intro eff heff _
    simp at heff
  · rw [if_neg hb]
    by_cases hlen : (prepareItemsForInsertion processedItems).length > 0
    · rw [if_pos hlen]
      refine ⟨fun h => absurd h hb, fun _ => rfl, ?_⟩
      intro eff _ _
      intro hnil
      rw [hnil] at hlen
      simp at hlen
    · rw [if_neg hlen]
      refine ⟨fun h => absurd h hb, fun _ => rfl, ?_⟩
      intro eff heff hcase
      exfalso
      cases emitProgress with
      | false => simp at heff
      | true =>
        rw [if_pos rfl] at heff
        rcases List.mem_singleton.mp heff with rfl
        rcases hcase with h | h | h | h <;> simp at h

/-- Witness for the C10 theorem at a concrete input. -/
theorem processAndSaveNewItems_frame_witness :
    ProcessSaveSpec [(userB, [rawB])] true [(userB, [rowA])] :=
  processAndSaveNewItems_frame [(userB, [rawB])] true [(userB, [rowA])]

end WatchlistSync
